import Mathlib

/-!
Verification development for the sapbci-cf-workers-helpers repository.

The definitions below are a shallow embedding of the JavaScript sources:

* src/create-path-matcher.js               (createPathMatcher, matchRemaining)
* src/cloudflare-workers-compatible-route-dispatcher.js
                                           (RouteDispatcher.matchRoute,
                                            RouteDispatcher._matchRemaining,
                                            RouteDispatcher.respond,
                                            RouteDispatcher.compose,
                                            Resolver.add / get / reload /
                                            _loadAndResolve)
* src/cloudflare-workers-compatible-response-builder.js
                                           (ResponseBuilder.end, enableCORS,
                                            setStatus, setHeader)

Strings are processed over their character lists so that every function is
structurally recursive and evaluates inside the kernel.  JavaScript objects
used as string-keyed dictionaries are modelled as association lists with the
insertion-order overwrite semantics of property assignment and of the spread
operator.  Fetch-API `Headers` are modelled as association lists whose keys
are stored lower-cased, matching case-insensitive `Headers.set`.
-/

/-- A path or pattern segment: the characters between two slashes. -/
abbrev Seg := List Char

/-- Split a character list on a separator character (like `String.split`). -/
def splitOnChar (sep : Char) : List Char → List (List Char)
  | [] => [[]]
  | c :: cs =>
    let rest := splitOnChar sep cs
    if c = sep then [] :: rest
    else match rest with
      | [] => [[c]]
      | r :: rs => (c :: r) :: rs

/-- JS `pathname.split('/').filter(Boolean)`: segments of a slash-separated
string, empty segments removed. -/
def segsOf (s : String) : List Seg :=
  (splitOnChar '/' s.data).filter (fun seg => seg ≠ [])

/-- Association-list assignment with JS object semantics: an existing key is
overwritten in place, a new key is appended at the end. -/
def alSet {β : Type} : List (Seg × β) → Seg → β → List (Seg × β)
  | [], k, v => [(k, v)]
  | (k', v') :: rest, k, v =>
    if k' = k then (k, v) :: rest else (k', v') :: alSet rest k v

/-- JS spread merge `\x7b...a, ...b\x7d`: every binding of `b` assigned into `a`. -/
def alMerge {β : Type} (a b : List (Seg × β)) : List (Seg × β) :=
  b.foldl (fun acc kv => alSet acc kv.1 kv.2) a

/-- Bound-parameter map `params` (name to path segment). -/
abbrev ParamsMap := List (Seg × Seg)

/-- Wildcard-capture map `segments` (name to consumed segment run). -/
abbrev WSegsMap := List (Seg × List Seg)

/-- Decimal value of a digit string, as computed by `parseInt(s, 10)` on an
all-digit string. -/
def digitsToNat (cs : List Char) : Nat :=
  cs.foldl (fun acc c => acc * 10 + (c.toNat - 48)) 0

/-- Recognizer for the count part of the wildcard regex:
`\d+` or `\d+-\d+` or the empty alternative. -/
def countSpecOk (cs : List Char) : Bool :=
  if cs = [] then true
  else match splitOnChar '-' cs with
    | [a] => a ≠ [] && a.all Char.isDigit
    | [a, b] => (a ≠ [] && a.all Char.isDigit) && (b ≠ [] && b.all Char.isDigit)
    | _ => false

/-- Recognizer for the name group of the wildcard regex:
`[a-zA-Z_][a-zA-Z0-9_]*`. -/
def identOk (cs : List Char) : Bool :=
  match cs with
  | [] => false
  | c :: rest => (c.isAlpha || c = '_') && rest.all (fun d => d.isAlphanum || d = '_')

/-- The wildcard token regex from both matchers,
`^\*(\d+(?:-\d+)?|)(?::([a-zA-Z_][a-zA-Z0-9_]*)?)$`: after the leading `*`
a count specifier, then a mandatory colon, then an optional name.  Returns
`(countSpec, optional name)` on success.  Note the colon is not optional in
the source regex, so a token such as `*2` does not parse. -/
def wildcardMatch (part : Seg) : Option (List Char × Option Seg) :=
  match part with
  | c :: rest =>
    if c = '*' then
      match splitOnChar ':' rest with
      | [cspec, n] =>
        if countSpecOk cspec && (n = [] || identOk n) then
          some (cspec, if n = [] then none else some n)
        else none
      | _ => none
    else none
  | [] => none

/-- Count-range parsing of both matchers: with a dash, `parseInt` of the two
halves; without, `minCount` stays 0 and `maxCount` is `parseInt` of the spec. -/
def parseCounts (cs : List Char) : Nat × Nat :=
  if cs.contains '-' then
    match splitOnChar '-' cs with
    | a :: b :: _ => (digitsToNat a, digitsToNat b)
    | _ => (0, 0)
  else (0, digitsToNat cs)

/-- Forbidden-value parsing of a `:param` token: the raw token after the colon
is split on `!` into the parameter name and the list of forbidden values. -/
def splitBang (cs : List Char) : Seg × List Seg :=
  match splitOnChar '!' cs with
  | [] => ([], [])
  | n :: forb => (n, forb)

/-- Result of `RouteDispatcher._matchRemaining`: bound params, bound wildcard
captures, and the reported `jIncrement`. -/
structure SubRes where
  params : ParamsMap
  segments : WSegsMap
  jInc : Nat
deriving DecidableEq

/-- Shallow embedding of `RouteDispatcher._matchRemaining` (dispatcher lines
700-806).  `params`/`segs` accumulate the bindings made by earlier literal
and `:param` iterations of the loop; the counted-wildcard case starts a fresh
recursive call exactly as the source does.  `fuel` bounds the recursion depth;
every recursive call shrinks the pattern, so `pattern.length + 1` is always
enough and the fuel-exhausted branch is unreachable from the entry point.
The source returns `jIncrement: 0` from the plain success exit and from the
bare `*` exit even though literal and `:param` iterations advanced `j`; this
under-reporting is reproduced faithfully. -/
def dMatchRemainingF : Nat → ParamsMap → WSegsMap → List Seg → List Seg → Option SubRes
  | 0, _, _, _, _ => none
  | _ + 1, params, segs, [], path =>
    if path = [] then some ⟨params, segs, 0⟩ else none
  | n + 1, params, segs, part :: rest, path =>
    if part.head? ≠ some ':' && part.head? ≠ some '*' then
      match path with
      | v :: vs => if v = part then dMatchRemainingF n params segs rest vs else none
      | [] => none
    else if part.head? = some ':' then
      match path with
      | [] => none
      | v :: vs =>
        let nf := splitBang part.tail
        if nf.2.contains v then none
        else dMatchRemainingF n (alSet params nf.1 v) segs rest vs
    else if part = ['*'] then
      some ⟨params, segs, 0⟩
    else
      match wildcardMatch part with
      | none => none
      | some (countSpec, nameOpt) =>
        if countSpec = [] then
          let segs' := match nameOpt with
            | some nm => alSet segs nm path
            | none => segs
          some ⟨params, segs', path.length⟩
        else
          let mm := parseCounts countSpec
          (List.range' mm.1 (mm.2 + 1 - mm.1)).findSome? (fun count =>
            match dMatchRemainingF n [] [] rest (path.drop count) with
            | some sub =>
              let segs1 := match nameOpt with
                | some nm => alSet segs nm (path.take count)
                | none => segs
              some ⟨alMerge params sub.params, alMerge segs1 sub.segments,
                    count + sub.jInc⟩
            | none => none)

/-- Entry point matching the source call
`this._matchRemaining(remainingPattern, remainingSegments)`. -/
def dMatchRemaining (pat path : List Seg) : Option SubRes :=
  dMatchRemainingF (pat.length + 1) [] [] pat path

/-- One candidate pattern of `RouteDispatcher.matchRoute` (the per-route body
of the loop at dispatcher lines 577-695).  `j` is the cursor into the full
`pathSegments` list; the function returns the `params`/`segments` maps when
the loop ends without `matchFailed` and `j` equals the number of path
segments. -/
def dMatchOne (pathSegments : List Seg) :
    List Seg → ParamsMap → WSegsMap → Nat → Option (ParamsMap × WSegsMap)
  | [], params, segs, j =>
    if j = pathSegments.length then some (params, segs) else none
  | part :: rest, params, segs, j =>
    if part.head? ≠ some ':' && part.head? ≠ some '*' then
      if pathSegments.get? j = some part then
        dMatchOne pathSegments rest params segs (j + 1)
      else none
    else if part.head? = some ':' then
      match pathSegments.get? j with
      | none => none
      | some v =>
        let nf := splitBang part.tail
        if nf.2.contains v then none
        else dMatchOne pathSegments rest (alSet params nf.1 v) segs (j + 1)
    else if part = ['*'] then
      some (params, segs)
    else
      match wildcardMatch part with
      | none => none
      | some (countSpec, nameOpt) =>
        if countSpec = [] then
          let segs' := match nameOpt with
            | some nm => alSet segs nm (pathSegments.drop j)
            | none => segs
          some (params, segs')
        else
          let mm := parseCounts countSpec
          match (List.range' mm.1 (mm.2 + 1 - mm.1)).findSome? (fun count =>
              match dMatchRemaining rest (pathSegments.drop (j + count)) with
              | some sub => some (count, sub)
              | none => none) with
          | some (count, sub) =>
            let segs1 := match nameOpt with
              | some nm => alSet segs nm ((pathSegments.drop j).take count)
              | none => segs
            if j + count + sub.jInc = pathSegments.length then
              some (alMerge params sub.params, alMerge segs1 sub.segments)
            else none
          | none => none

/-- A registered route: the pattern string plus an opaque payload standing for
the source's `handler`/`middlewares`/`options` fields. -/
structure RouteE (α : Type) where
  path : String
  payload : α
deriving DecidableEq

/-- A successful `matchRoute` result. -/
structure MatchResultE (α : Type) where
  payload : α
  params : ParamsMap
  segments : WSegsMap
deriving DecidableEq

/-- The per-candidate test of `RouteDispatcher.matchRoute`: the two literal
fast paths (`path === pathname || path === '*'`), then segment-by-segment
matching via `dMatchOne`. -/
def routeHit {α : Type} (pathname : String) (r : RouteE α) : Option (MatchResultE α) :=
  if r.path = pathname || r.path = "*" then
    some ⟨r.payload, [], []⟩
  else
    match dMatchOne (segsOf pathname) (segsOf r.path) [] [] 0 with
    | some ps => some ⟨r.payload, ps.1, ps.2⟩
    | none => none

/-- The candidate loop of `RouteDispatcher.matchRoute`: candidates are tried
in registration order and the first full match is returned; no match at all
yields `none` (the source returns null, it does not throw). -/
def matchRouteList {α : Type} (candidates : List (RouteE α)) (pathname : String) :
    Option (MatchResultE α) :=
  match candidates with
  | [] => none
  | r :: rest =>
    match routeHit pathname r with
    | some m => some m
    | none => matchRouteList rest pathname

/-- `RouteDispatcher.matchRoute(method, pathname)` over the whole route table
(`this.routes.get(method) || []`). -/
def matchRouteM {α : Type} (table : List (String × List (RouteE α)))
    (method pathname : String) : Option (MatchResultE α) :=
  matchRouteList (((table.find? (fun kv => kv.1 = method)).map Prod.snd).getD []) pathname

/-- Shallow embedding of `matchRemaining` from src/create-path-matcher.js
(lines 105-184).  Unlike the dispatcher's `_matchRemaining` it returns the
merged result directly from the counted-wildcard case, with no consumed-count
bookkeeping.  The top-level matcher returned by `createPathMatcher` (lines
8-100) runs the same algorithm, so it shares this function. -/
def cMatchRemainingF : Nat → ParamsMap → WSegsMap → List Seg → List Seg →
    Option (ParamsMap × WSegsMap)
  | 0, _, _, _, _ => none
  | _ + 1, params, segs, [], path =>
    if path = [] then some (params, segs) else none
  | n + 1, params, segs, part :: rest, path =>
    if part.head? ≠ some ':' && part.head? ≠ some '*' then
      match path with
      | v :: vs => if v = part then cMatchRemainingF n params segs rest vs else none
      | [] => none
    else if part.head? = some ':' then
      match path with
      | [] => none
      | v :: vs =>
        let nf := splitBang part.tail
        if nf.2.contains v then none
        else cMatchRemainingF n (alSet params nf.1 v) segs rest vs
    else if part = ['*'] then
      some (params, segs)
    else
      match wildcardMatch part with
      | none => none
      | some (countSpec, nameOpt) =>
        if countSpec = [] then
          let segs' := match nameOpt with
            | some nm => alSet segs nm path
            | none => segs
          some (params, segs')
        else
          let mm := parseCounts countSpec
          (List.range' mm.1 (mm.2 + 1 - mm.1)).findSome? (fun count =>
            match cMatchRemainingF n [] [] rest (path.drop count) with
            | some sub =>
              let segs1 := match nameOpt with
                | some nm => alSet segs nm (path.take count)
                | none => segs
              some (alMerge params sub.1, alMerge segs1 sub.2)
            | none => none)

/-- The matcher produced by `createPathMatcher(pattern)` applied to a
pathname. -/
def createPathMatcher (pattern pathname : String) : Option (ParamsMap × WSegsMap) :=
  cMatchRemainingF ((segsOf pattern).length + 1) [] [] (segsOf pattern) (segsOf pathname)

example : segsOf "/files/a/end" = [['f','i','l','e','s'], ['a'], ['e','n','d']] := by decide

example :
    createPathMatcher "/files/*1-2:parts/end" "/files/a/end" =
      some ([], [(['p','a','r','t','s'], [['a']])]) := by decide

example :
    matchRouteList [(⟨"/files/*1-2:parts/end", (0 : Nat)⟩ : RouteE Nat)] "/files/a/end" =
      none := by decide

/-!
Dispatch-controller embedding: `RouteDispatcher.respond` (dispatcher lines
395-518) together with the parts of `ResponseBuilder` it exercises
(constructor defaults, `setStatus`, `enableCORS`, `end`).  Collaborator
outcomes that depend on runtime request internals are supplied as data:
whether the `RequestParser` constructor throws, the `safeParse` verdicts of
configured validators, and the settlement of the composed middleware/handler
pipeline.  `JSON.stringify` results are kept symbolic as `BodyM`
constructors; the user agent's default Content-Type for string bodies is not
modelled.
-/

/-- Decidable equality for `Except`, by cases (needed so that concrete
evaluations of the dispatch controller can be settled by `decide`). -/
instance exceptDecEq {α β : Type} [DecidableEq α] [DecidableEq β] :
    DecidableEq (Except α β)
  | .error x, .error y =>
    match decEq x y with
    | isTrue h => isTrue (h ▸ rfl)
    | isFalse h => isFalse (fun hh => h (Except.error.inj hh))
  | .ok x, .ok y =>
    match decEq x y with
    | isTrue h => isTrue (h ▸ rfl)
    | isFalse h => isFalse (fun hh => h (Except.ok.inj hh))
  | .error _, .ok _ => isFalse (fun hh => Except.noConfusion hh)
  | .ok _, .error _ => isFalse (fun hh => Except.noConfusion hh)

/-- A thrown error as produced by the repository's `createError` helpers:
a message plus the `status`/`code`/`hint`/`exit_code` properties, each
optional because plain errors thrown by user handlers may lack them. -/
structure JsError where
  message : String
  status : Option Nat := none
  code : Option String := none
  hint : Option String := none
  exitCode : Option Nat := none
deriving DecidableEq

/-- JS falsy coalescing `x || d` on an optional number-valued property:
an absent property (undefined) and the number 0 are both falsy and fall back
to the default. -/
def jsOrNat (v : Option Nat) (d : Nat) : Nat :=
  match v with
  | some n => if n = 0 then d else n
  | none => d

/-- JS falsy coalescing `x || d` on an optional string-valued property:
undefined and the empty string fall back to the default. -/
def jsOrStr (v : Option String) (d : String) : String :=
  match v with
  | some s => if s = "" then d else s
  | none => d

/-- JS `x || undefined` on an optional string-valued property: a falsy
value becomes undefined. -/
def jsOrUndefStr (v : Option String) : Option String :=
  match v with
  | some s => if s = "" then none else some s
  | none => none

/-- JS `x || undefined` on an optional number-valued property. -/
def jsOrUndefNat (v : Option Nat) : Option Nat :=
  match v with
  | some n => if n = 0 then none else some n
  | none => none

/-- The dispatcher's `createError` (dispatcher lines 24-31) with every
argument explicit; the hint property is only set when truthy
(`if (hint) error.hint = hint`). -/
def createErrorD (message : String) (status : Nat) (code : String)
    (exitCode : Nat) (hint : Option String) : JsError :=
  ⟨message, some status, some code, jsOrUndefStr hint, some exitCode⟩

/-- Lower-case a string character-wise (JS `toLowerCase` on ASCII data). -/
def jsLower (s : String) : String := ⟨s.data.map Char.toLower⟩

/-- Upper-case a string character-wise (JS `toUpperCase` on ASCII data). -/
def jsUpper (s : String) : String := ⟨s.data.map Char.toUpper⟩

/-- Fetch-API `Headers` value: keys stored lower-cased. -/
abbrev HdrS := List (String × String)

/-- Worker for `hdrSet`: overwrite the (already lower-cased) name in place or
append it. -/
def hdrSetGo (key v : String) : HdrS → HdrS
  | [] => [(key, v)]
  | (k', v') :: rest =>
    if k' = key then (key, v) :: rest else (k', v') :: hdrSetGo key v rest

/-- `Headers.set`: case-insensitive overwrite, appending new names. -/
def hdrSet (hs : HdrS) (k v : String) : HdrS :=
  hdrSetGo (jsLower k) v hs

/-- `Headers.get` (case-insensitive lookup; `none` models null). -/
def hdrGet (hs : HdrS) (k : String) : Option String :=
  (hs.find? (fun kv => kv.1 = jsLower k)).map Prod.snd

/-- `Headers.has`. -/
def hdrHas (hs : HdrS) (k : String) : Bool :=
  (hdrGet hs k).isSome

/-- Response body, with serialization kept symbolic. -/
inductive BodyM where
  /-- null body. -/
  | empty : BodyM
  /-- a string body. -/
  | text (s : String) : BodyM
  /-- `JSON.stringify` of a plain object with string-valued fields. -/
  | jsonObj (fields : List (String × String)) : BodyM
  /-- `JSON.stringify` of an `Error` instance returned by a handler. -/
  | jsonErrObj (e : JsError) : BodyM
  /-- the canonical error payload of the catch branch:
  `error`, `code`, optional `hint`, optional `exit_code`. -/
  | jsonCanonical (error : String) (code : String) (hint : Option String)
      (exitCode : Option Nat) : BodyM
  /-- a validation-failure payload `\x7berror, issues\x7d`. -/
  | jsonIssues (label : String) (issues : String) : BodyM
deriving DecidableEq

/-- A Fetch-API `Response`. -/
structure ResponseM where
  status : Nat
  headers : HdrS
  body : BodyM
deriving DecidableEq

/-- The value slot of a `ResponseBuilder` (`this.data`) or an `end(body)`
argument. -/
inductive DataV where
  /-- JS `undefined`. -/
  | undef : DataV
  /-- JS `null`. -/
  | jsNull : DataV
  /-- a string. -/
  | str (s : String) : DataV
  /-- a plain object with string-valued fields. -/
  | obj (fields : List (String × String)) : DataV
deriving DecidableEq

/-- `ResponseBuilder` state (builder constructor defaults, lines 29-76 of the
response-builder source).  Streams, Blob/FormData/ArrayBuffer bodies and the
encoder fields are not modelled; none of the dispatched paths under study use
them. -/
structure BuilderM where
  status : Nat := 200
  headers : HdrS := []
  data : DataV := .undef
  corsEnabled : Bool := false
  corsOrigin : String := "*"
  corsMethods : String := "GET,POST,PUT,PATCH,DELETE,OPTIONS"
  corsHeaders : String := "Content-Type"
  corsCredentials : Bool := false
  redirectOn : Bool := false
  redirectLocation : String := ""
  redirectCode : Nat := 302
  ended : Bool := false
  rawResponse : Option ResponseM := none
deriving DecidableEq

/-- `ResponseBuilder.end(body)` (response-builder lines 388-467) restricted to
the non-stream, non-binary branches.  Returns the produced response and the
updated builder state. -/
def builderEnd (b : BuilderM) (body : DataV) : ResponseM × BuilderM :=
  match b.ended, b.rawResponse with
  | true, some r => (r, b)
  | _, _ =>
    let b := { b with ended := true }
    let hs :=
      if b.corsEnabled then
        let hs := hdrSet b.headers "Access-Control-Allow-Origin" b.corsOrigin
        let hs := hdrSet hs "Access-Control-Allow-Methods" b.corsMethods
        let hs := hdrSet hs "Access-Control-Allow-Headers" b.corsHeaders
        if b.corsCredentials then hdrSet hs "Access-Control-Allow-Credentials" "true" else hs
      else b.headers
    let afterRedirect : HdrS × Option ResponseM :=
      if b.redirectOn then
        let hs := hdrSet hs "Location" b.redirectLocation
        (hs, some ⟨b.redirectCode, hs, .empty⟩)
      else (hs, none)
    let useData := if body ≠ .jsNull then body else b.data
    let step : HdrS × BodyM :=
      match useData with
      | .obj o =>
        (if hdrHas afterRedirect.1 "Content-Type" then afterRedirect.1
         else hdrSet afterRedirect.1 "Content-Type" "application/json", .jsonObj o)
      | .jsNull =>
        (if hdrHas afterRedirect.1 "Content-Type" then afterRedirect.1
         else hdrSet afterRedirect.1 "Content-Type" "application/json", .text "null")
      | .str s =>
        (if hdrHas afterRedirect.1 "Content-Type" then afterRedirect.1
         else hdrSet afterRedirect.1 "Content-Type" "text/plain; charset=utf-8", .text s)
      | .undef => (afterRedirect.1, .text "")
    match afterRedirect.2 with
    | some r => (r, { b with headers := step.1, rawResponse := some r })
    | none =>
      let r : ResponseM := ⟨b.status, step.1, step.2⟩
      (r, { b with headers := step.1, rawResponse := some r })

/-- What the composed pipeline's promise resolved with, classified the way
the normalization chain of `respond` classifies it. -/
inductive HandlerRes where
  /-- `result instanceof Response`. -/
  | resp (r : ResponseM) : HandlerRes
  /-- `result instanceof ResponseBuilder` (its state at settlement). -/
  | builder (b : BuilderM) : HandlerRes
  /-- a plain data object (`result.constructor === Object`). -/
  | plainObj (fields : List (String × String)) : HandlerRes
  /-- `result instanceof Error`. -/
  | errObj (e : JsError) : HandlerRes
  /-- anything else, in particular `undefined`. -/
  | other : HandlerRes
deriving DecidableEq

/-- Fold the configured security headers into a header set with `Headers.set`
(the loop at dispatcher lines 488-490). -/
def injectSec (sec : List (String × String)) (base : HdrS) : HdrS :=
  sec.foldl (fun hs kv => hdrSet hs kv.1 kv.2) base

/-- The fulfilled branch of `respond` (the `.then` callback, dispatcher lines
466-493): normalization of the handler result followed by security-header
injection.  The plain-object branch and the missing-`finalResponse` fallback
return before the injection loop, exactly as in the source. -/
def normalizeThen (sec : List (String × String)) (resState : BuilderM)
    (result : HandlerRes) : ResponseM :=
  let finalResponse : Option ResponseM :=
    match result with
    | .resp r => some ⟨r.status, [], r.body⟩
    | .builder b => some (builderEnd b .jsNull).1
    | _ =>
      if resState.ended then resState.rawResponse
      else
        match result with
        | .errObj e => some ⟨500, [], .jsonErrObj e⟩
        | _ => none
  match result, resState.ended with
  | .plainObj o, false => ⟨200, [], .jsonObj o⟩
  | _, _ =>
    match finalResponse with
    | none => ⟨204, [], .empty⟩
    | some fr => ⟨fr.status, injectSec sec fr.headers, fr.body⟩

/-- The rejected branch of `respond` (the `.catch` callback, dispatcher lines
494-517): the optional custom error handler, then the canonical JSON error
payload built with JS falsy coalescing — `err.status || 500`,
`err.code || 'UNKNOWN_ERROR'`, `err.hint || undefined`,
`err.exit_code || undefined`. -/
def catchBranch (errorHandler : Option (JsError → Option ResponseM))
    (e : JsError) : ResponseM :=
  let canonical : ResponseM :=
    ⟨jsOrNat e.status 500, [("content-type", "application/json")],
     .jsonCanonical e.message (jsOrStr e.code "UNKNOWN_ERROR")
       (jsOrUndefStr e.hint) (jsOrUndefNat e.exitCode)⟩
  match errorHandler with
  | some f =>
    match f e with
    | some handled => handled
    | none => canonical
  | none => canonical

/-- A `safeParse` verdict: parse success or failure with issues. -/
inductive VerdictM where
  /-- `parsed.success` is true. -/
  | success : VerdictM
  /-- `parsed.success` is false, carrying `parsed.error`. -/
  | failure (issues : String) : VerdictM
deriving DecidableEq

/-- Configured `safeParse` verdicts of a route's `options.validate` entry. -/
structure VSpec where
  body : Option VerdictM := none
  query : Option VerdictM := none
deriving DecidableEq

/-- The per-request behaviour of a matched route's collaborators: the
validator verdicts, how the composed pipeline settles, and the state of the
per-request `res` builder at settlement. -/
structure RBehavior where
  validate : Option VSpec := none
  pipeOutcome : Except JsError HandlerRes := .ok .other
  resAfter : BuilderM := {}
deriving DecidableEq

/-- Dispatcher configuration consulted by `respond`: the security-header map
of `setSecurityHeaders` (dispatcher lines 324-327) and the `onError`
handler. -/
structure DispCfg where
  securityHeaders : List (String × String) := []
  errorHandler : Option (JsError → Option ResponseM) := none

/-- The modelled incoming request: method, URL pathname, and whether the
`RequestParser` constructor throws (with which message). -/
structure ReqM where
  method : String
  pathname : String
  adapterFail : Option String := none

/-- JS trailing-slash normalization of dispatcher line 408. -/
def stripSlash (s : String) : String :=
  if s.data.getLast? = some '/' && s ≠ "/" then ⟨s.data.dropLast⟩ else s

/-- Validation plus pipeline execution plus settlement handling: `respond`
after a route has matched and the request adapter has been constructed
(dispatcher lines 434-517). -/
def respondPipeline (cfg : DispCfg) (beh : RBehavior) : ResponseM :=
  let run : ResponseM :=
    match beh.pipeOutcome with
    | .ok result => normalizeThen cfg.securityHeaders beh.resAfter result
    | .error e => catchBranch cfg.errorHandler e
  match beh.validate with
  | some v =>
    match v.body with
    | some (.failure issues) =>
      ⟨400, [("content-type", "application/json")], .jsonIssues "Invalid request body" issues⟩
    | _ =>
      match v.query with
      | some (.failure issues) =>
        ⟨400, [("content-type", "application/json")], .jsonIssues "Invalid query parameters" issues⟩
      | _ => run
  | none => run

/-- The issues reported by a failing configured body validator, if any. -/
def bodyIssues : Option VSpec → Option String
  | none => none
  | some v =>
    match v.body with
    | some (.failure iss) => some iss
    | _ => none

/-- The issues reported by a failing configured query validator, if any. -/
def queryIssues : Option VSpec → Option String
  | none => none
  | some v =>
    match v.query with
    | some (.failure iss) => some iss
    | _ => none

/-- Shallow embedding of `RouteDispatcher.respond` (dispatcher lines
395-518).  The result is `Except.error e` when `respond`'s promise rejects
with a thrown error `e` — in particular the re-thrown adapter-construction
error of lines 425-433 — and `Except.ok r` when it fulfills with response
`r`. -/
def respondM (cfg : DispCfg) (table : List (String × List (RouteE RBehavior)))
    (req : ReqM) : Except JsError ResponseM :=
  let method := jsLower req.method
  let pathname := stripSlash req.pathname
  if req.method = "OPTIONS" then
    .ok (builderEnd { status := 204, corsEnabled := true } .jsNull).1
  else
    match matchRouteM table method pathname with
    | none => .ok ⟨404, [], .text ("Not found: " ++ jsUpper method ++ " " ++ pathname)⟩
    | some m =>
      match req.adapterFail with
      | some msg =>
        .error (createErrorD ("Failed while initiating a Request: " ++ msg) 500
          "REQUEST_INIT_FAILED" 15
          (some "Verify the request body and headers are properly structured."))
      | none => .ok (respondPipeline cfg m.payload)

/-!
Middleware-composer embedding: `RouteDispatcher.compose` (dispatcher lines
814-844).  A middleware is modelled by what it does with its continuation: a
finite sequence of `next()` invocations (`MwBody.nextThen`) ending in a
return (`MwBody.done`).  The interpreter mirrors `execute`/`dispatch`: a
shared mutable `index` starting at -1, the guard `if (i <= index) throw`, and
the selection of `middlewares[i]` or the final handler at `i ===
middlewares.length`.  Execution is logged: entering middleware `i` records
`PipeEv.mw i`, running the final handler records `PipeEv.hnd`.  `fuel` bounds
the call depth; `middlewares.length + 2` always suffices.
-/

/-- What a middleware does with the shared continuation. -/
inductive MwBody where
  /-- return without calling `next` again. -/
  | done : MwBody
  /-- call `next()`, then continue as the rest of the body. -/
  | nextThen (k : MwBody) : MwBody
deriving DecidableEq

/-- Pipeline execution events. -/
inductive PipeEv where
  /-- middleware at position `i` started executing. -/
  | mw (i : Nat) : PipeEv
  /-- the final handler executed. -/
  | hnd : PipeEv
deriving DecidableEq

/-- The mutable state closed over by `execute`: the dispatch `index` (starting
at -1) and the event log. -/
structure PipeSt where
  index : Int
  trace : List PipeEv
deriving DecidableEq

/-- Run one middleware body, invoking the given continuation for each
`next()` call and propagating a thrown error. -/
def runMwBody (nextF : PipeSt → Except String PipeSt) :
    MwBody → PipeSt → Except String PipeSt
  | .done, st => .ok st
  | .nextThen k, st =>
    match nextF st with
    | .error e => .error e
    | .ok st' => runMwBody nextF k st'

/-- `dispatch(i)` of `compose` (dispatcher lines 835-841): the reentrancy
guard, the index update, and the selection of the next callable. -/
def dispatchF (mws : List MwBody) : Nat → Nat → PipeSt → Except String PipeSt
  | 0, _, _ => .error "fuel exhausted"
  | f + 1, i, st =>
    if (i : Int) ≤ st.index then .error "next() called multiple times"
    else
      match mws.get? i with
      | some body =>
        runMwBody (dispatchF mws f (i + 1)) body ⟨(i : Int), st.trace ++ [.mw i]⟩
      | none =>
        if i = mws.length then .ok ⟨(i : Int), st.trace ++ [.hnd]⟩
        else .ok ⟨(i : Int), st.trace⟩

/-- The composed pipeline applied once: `compose(middlewares, H)(...)`, i.e.
`dispatch(0)` from a fresh state. -/
def composeExec (mws : List MwBody) : Except String PipeSt :=
  dispatchF mws (mws.length + 2) 0 ⟨-1, []⟩

/-- A middleware that invokes its continuation exactly once. -/
def onceB : MwBody := .nextThen .done

/-- A middleware that invokes the continuation a second time after the chain
already advanced past it. -/
def twiceB : MwBody := .nextThen (.nextThen .done)

/-!
Resolver embedding: the `Resolver` class (dispatcher lines 104-197).  JS
runtime values are modelled by `JsVal`, with functions and adapters referred
to by opaque identifiers evaluated through a `JsEnv`.  The sequential model
(`addR`/`getR`/`reloadR`/`loadAndResolveR`) gives the awaited result of each
operation when it runs without interleaving; entries of `pendingLoads` are
modelled as the value their promise settles with.  Concurrency (claim C3) is
treated by the scheduler model further below.
-/

/-- A JS runtime value, sufficient for the resolver's truthiness and
type-inspection tests. -/
inductive JsVal where
  /-- `undefined`. -/
  | vundef : JsVal
  /-- `null`. -/
  | vnull : JsVal
  /-- a boolean. -/
  | vbool (b : Bool) : JsVal
  /-- a number. -/
  | vnum (n : Int) : JsVal
  /-- a string. -/
  | vstr (s : String) : JsVal
  /-- an async function (recognized by the `[object AsyncFunction]` test). -/
  | vfuncAsync (id : Nat) : JsVal
  /-- an ordinary function. -/
  | vfuncPlain (id : Nat) : JsVal
  /-- any other object. -/
  | vobjRef (id : Nat) : JsVal
deriving DecidableEq

/-- JS truthiness. -/
def truthy : JsVal → Bool
  | .vundef => false
  | .vnull => false
  | .vbool b => b
  | .vnum n => n != 0
  | .vstr s => s ≠ ""
  | _ => true

/-- `Map.set` on a JS `Map` keyed by arbitrary values. -/
def mapSet {β : Type} : List (JsVal × β) → JsVal → β → List (JsVal × β)
  | [], k, v => [(k, v)]
  | (k', v') :: rest, k, v =>
    if k' = k then (k, v) :: rest else (k', v') :: mapSet rest k v

/-- `Map.get` (`none` models `undefined`). -/
def mapGet {β : Type} (m : List (JsVal × β)) (k : JsVal) : Option β :=
  (m.find? (fun kv => kv.1 = k)).map Prod.snd

/-- `Map.delete`. -/
def mapDel {β : Type} (m : List (JsVal × β)) (k : JsVal) : List (JsVal × β) :=
  m.filter (fun kv => kv.1 ≠ k)

/-- An entry of `_resolvedValues`. -/
structure RVEntry where
  key : JsVal
  adapterId : Option Nat
  value : JsVal
deriving DecidableEq

/-- An entry of `_promisedValues`: the async producer, the optional adapter,
the optional purge predicate. -/
structure PVEntry where
  valueFn : Nat
  adapterId : Option Nat
  purgeId : Option Nat
deriving DecidableEq

/-- The three maps of a `Resolver` instance.  A `pendingLoads` entry is
modelled by the value its promise settles with. -/
structure ResolverSt where
  resolvedValues : List (JsVal × RVEntry) := []
  promisedValues : List (JsVal × PVEntry) := []
  pendingLoads : List (JsVal × JsVal) := []

/-- The argument object of `Resolver.add`. -/
structure AddArg where
  key : JsVal := .vundef
  value : JsVal := .vundef
  adapterId : Option Nat := none
  purgeId : Option Nat := none

/-- Evaluation environment for the opaque callables held by resolver
entries. -/
structure JsEnv where
  callAsync : Nat → JsVal
  callAdapter : Nat → JsVal → JsVal
  callPurge : Nat → JsVal → Bool

/-- `Resolver.add` (dispatcher lines 149-171).  Nothing happens unless both
`object.value` and `object.key` are truthy.  An async-function value
registers a producer and a null placeholder; any other value is stored
directly — note the static branch stores no purge predicate.  The argument
is returned unchanged. -/
def addR (st : ResolverSt) (o : AddArg) : ResolverSt × AddArg :=
  if truthy o.value && truthy o.key then
    match o.value with
    | .vfuncAsync fid =>
      ({ st with
          promisedValues := mapSet st.promisedValues o.key ⟨fid, o.adapterId, o.purgeId⟩,
          resolvedValues := mapSet st.resolvedValues o.key ⟨o.key, o.adapterId, .vnull⟩ }, o)
    | _ =>
      ({ st with
          resolvedValues := mapSet st.resolvedValues o.key ⟨o.key, o.adapterId, o.value⟩ }, o)
  else (st, o)

/-- `Resolver._loadAndResolve` (dispatcher lines 186-196): run the producer,
apply the adapter if present, cache the adapted value, clear the pending
entry, return the adapted value. -/
def loadAndResolveR (env : JsEnv) (st : ResolverSt) (key : JsVal) (pe : PVEntry) :
    JsVal × ResolverSt :=
  let value := env.callAsync pe.valueFn
  let adapted := match pe.adapterId with
    | some a => env.callAdapter a value
    | none => value
  (adapted,
   { st with
      resolvedValues := mapSet st.resolvedValues key ⟨key, pe.adapterId, adapted⟩,
      pendingLoads := mapDel st.pendingLoads key })

/-- `Resolver.reload` (dispatcher lines 173-184), awaited to completion in
the sequential model (the `set`/`delete` of the pending entry cancel out). -/
def reloadR (env : JsEnv) (st : ResolverSt) (key : JsVal) : JsVal × ResolverSt :=
  match mapGet st.promisedValues key with
  | none => (.vnull, st)
  | some pe =>
    match mapGet st.pendingLoads key with
    | some v => (v, st)
    | none => loadAndResolveR env st key pe

/-- `Resolver.get` (dispatcher lines 123-147), awaited to completion in the
sequential model.  `JsVal.vnull` models a returned null. -/
def getR (env : JsEnv) (st : ResolverSt) (key : JsVal) : JsVal × ResolverSt :=
  let loaderEntry := mapGet st.promisedValues key
  let resolvedEntry := mapGet st.resolvedValues key
  match resolvedEntry with
  | none => (.vnull, st)
  | some re =>
    let purgeHit :=
      match loaderEntry with
      | some le =>
        match le.purgeId with
        | some pid => env.callPurge pid re.value
        | none => false
      | none => false
    if purgeHit then reloadR env st key
    else if re.value ≠ .vnull then (re.value, st)
    else
      match loaderEntry with
      | some le =>
        match mapGet st.pendingLoads key with
        | some v => (v, st)
        | none => loadAndResolveR env st key le
      | none => (.vnull, st)

/-!
Concurrency model for the resolver (claim C3).  JavaScript is single-threaded
with run-to-completion between `await` points.  For a key registered with an
async producer and no purge predicate, `get` has no `await` before the
pending-load check, and `_loadAndResolve` invokes the producer synchronously
before `get` stores the pending promise; the whole prefix of `get`/`reload`
up to (and including) `this._pendingLoads.set(key, promise)` is therefore one
atomic step.  The model has two caller tasks running `get(key)` or
`reload(key)` on the same freshly registered lazy key, plus a load-runner
task standing for the resumption of `_loadAndResolve` after its `await`.  A
schedule is an arbitrary interleaving of these steps.  Loads are numbered by
`invocations`; `completedGen` counts finished loads, so a load is in flight
exactly when `completedGen < invocations`; the producer/adapter always
settles with the same adapted value `a`.
-/

/-- Program counter of one caller task. -/
inductive TPC where
  /-- about to run the synchronous prefix of `get`/`reload`. -/
  | ready : TPC
  /-- awaiting the pending load numbered `gen`. -/
  | waiting (gen : Nat) : TPC
  /-- returned with the given value. -/
  | finished (v : Option Nat) : TPC
deriving DecidableEq

/-- Shared state of the concurrency model. -/
structure CState where
  resolvedVal : Option Nat
  invocations : Nat
  completedGen : Nat
  pc0 : TPC
  pc1 : TPC
deriving DecidableEq

/-- `_pendingLoads.has(key)`: a load is in flight. -/
def pendingC (st : CState) : Bool := st.completedGen < st.invocations

/-- The atomic synchronous prefix of `get(key)` (when `isReload` is false;
dispatcher lines 123-143 with no purge and a null placeholder) or of
`reload(key)` (dispatcher lines 173-183).  Starting a load invokes the
producer (incrementing `invocations`) and registers the pending entry in the
same step. -/
def callerStep (isReload : Bool) (st : CState) (pc : TPC) (a : Nat) : TPC × CState :=
  match pc with
  | .ready =>
    match isReload, st.resolvedVal with
    | false, some v => (.finished (some v), st)
    | _, _ =>
      if pendingC st then (.waiting st.invocations, st)
      else (.waiting (st.invocations + 1), { st with invocations := st.invocations + 1 })
  | .waiting g =>
    if g ≤ st.completedGen then (.finished (some a), st) else (.waiting g, st)
  | .finished v => (.finished v, st)

/-- The three schedulable activities: the two callers, and the resumption of
the in-flight `_loadAndResolve` after its producer await. -/
inductive TaskId where
  /-- the first caller task. -/
  | caller0 : TaskId
  /-- the second caller task. -/
  | caller1 : TaskId
  /-- the load-runner: the continuation of `_loadAndResolve`, which caches
  the adapted value and clears the pending entry. -/
  | loadRun : TaskId
deriving DecidableEq

/-- One scheduler step. -/
def stepC (k0 k1 : Bool) (a : Nat) (st : CState) (who : TaskId) : CState :=
  match who with
  | .caller0 =>
    let r := callerStep k0 st st.pc0 a
    { r.2 with pc0 := r.1 }
  | .caller1 =>
    let r := callerStep k1 st st.pc1 a
    { r.2 with pc1 := r.1 }
  | .loadRun =>
    if pendingC st then
      { st with completedGen := st.completedGen + 1, resolvedVal := some a }
    else st

/-- Run a whole schedule. -/
def runC (k0 k1 : Bool) (a : Nat) (sched : List TaskId) (st : CState) : CState :=
  sched.foldl (stepC k0 k1 a) st

/-- The state right after `add` registered the async producer: null
placeholder cached, no load started, both callers about to run. -/
def initC : CState := ⟨none, 0, 0, .ready, .ready⟩

/-!
Claim theorems: pattern matching (C1, C6, C9).
-/

/-- Helper: a character with the digit property differs from any character
without it. -/
theorem digit_ne {c : Char} (h : c.isDigit = true) (d : Char)
    (hd : d.isDigit = false) : c ≠ d := by
  intro e
  rw [e, hd] at h
  exact Bool.false_ne_true h

/-- Helper: a list containing no occurrence of the separator splits into a
single piece. -/
theorem splitOnChar_no_sep (sep : Char) (cs : List Char)
    (h : ∀ c ∈ cs, c ≠ sep) : splitOnChar sep cs = [cs] := by
  induction cs with
  | nil => rfl
  | cons c rest ih =>
    have hc : c ≠ sep := h c (List.mem_cons_self c rest)
    have hr : splitOnChar sep rest = [rest] :=
      ih (fun x hx => h x (List.mem_cons_of_mem c hx))
    simp [splitOnChar, hc, hr]

/-- Helper: an all-digit list does not contain the dash character. -/
theorem all_digit_no_dash (cs : List Char) (h : cs.all Char.isDigit = true) :
    cs.contains '-' = false := by
  have hmem : '-' ∉ cs := by
    intro hm
    have hd := List.all_eq_true.mp h '-' hm
    exact absurd hd (by decide)
  simpa using hmem

/-- C1: under `RouteDispatcher.matchRoute`, the bounded-wildcard pattern
`/files/*1-2:parts/end` of the specification matches none of the three
example paths — `_matchRemaining` reports a `jIncrement` that omits the
literal `end` it consumed, so the final full-consumption check fails — while
the structurally identical matcher of src/create-path-matcher.js produces
exactly the spec-prescribed results on the same inputs. -/
theorem C1_matchRoute_drops_wildcard_tail :
    matchRouteM [("get", [(⟨"/files/*1-2:parts/end", 0⟩ : RouteE Nat)])] "get"
        "/files/a/end" = none
  ∧ matchRouteM [("get", [(⟨"/files/*1-2:parts/end", 0⟩ : RouteE Nat)])] "get"
        "/files/a/b/end" = none
  ∧ matchRouteM [("get", [(⟨"/files/*1-2:parts/end", 0⟩ : RouteE Nat)])] "get"
        "/files/a/b/c/end" = none
  ∧ createPathMatcher "/files/*1-2:parts/end" "/files/a/end" =
      some ([], [(['p','a','r','t','s'], [['a']])])
  ∧ createPathMatcher "/files/*1-2:parts/end" "/files/a/b/end" =
      some ([], [(['p','a','r','t','s'], [['a'], ['b']])])
  ∧ createPathMatcher "/files/*1-2:parts/end" "/files/a/b/c/end" = none :=
  ⟨by decide, by decide, by decide, by decide, by decide, by decide⟩

/-- C6: route lookup returns the hit of the first route, in registration
order, whose pattern matches the pathname — any later routes (even more
specific ones) are irrelevant once an earlier route hits — and when no
candidate hits, lookup reports `none` rather than failing. -/
theorem C6_first_registered_match_wins (pathname : String)
    (pre post rs : List (RouteE Nat)) (r : RouteE Nat) (m : MatchResultE Nat) :
    ((∀ r' ∈ pre, routeHit pathname r' = none) → routeHit pathname r = some m →
      matchRouteList (pre ++ r :: post) pathname = some m)
  ∧ ((∀ r' ∈ rs, routeHit pathname r' = none) → matchRouteList rs pathname = none) := by
  constructor
  · intro hpre hr
    induction pre with
    | nil => simp [matchRouteList, hr]
    | cons a as ih =>
      have ha : routeHit pathname a = none := hpre a (List.mem_cons_self a as)
      have hrec : matchRouteList (as ++ r :: post) pathname = some m :=
        ih (fun r' h => hpre r' (List.mem_cons_of_mem a h))
      simpa [matchRouteList, ha] using hrec
  · intro hrs
    induction rs with
    | nil => rfl
    | cons a as ih =>
      have ha : routeHit pathname a = none := hrs a (List.mem_cons_self a as)
      have hrec : matchRouteList as pathname = none :=
        ih (fun r' h => hrs r' (List.mem_cons_of_mem a h))
      simpa [matchRouteList, ha] using hrec

/-- C6 witness: `/users/42` is taken by the earlier-registered `/users/:id`
route even though the later, more specific literal route `/users/42` would
also match. -/
theorem C6_first_registered_match_wins_witness :
    matchRouteList
      ([⟨"/admin", 0⟩, ⟨"/users/:id", 1⟩, ⟨"/users/42", 2⟩] : List (RouteE Nat))
      "/users/42" = some ⟨1, [(['i','d'], ['4','2'])], []⟩ :=
  (C6_first_registered_match_wins "/users/42" [⟨"/admin", 0⟩] [⟨"/users/42", 2⟩]
      [] ⟨"/users/:id", 1⟩ ⟨1, [(['i','d'], ['4','2'])], []⟩).1
    (by decide) (by decide)

/-- C9 counterexample: the claimed example is false — `/a/*2/b` matches
nothing, in particular not `/a/b`, because the wildcard regex demands a colon
after the count, so the token `*2` fails to parse as a wildcard. -/
theorem C9_counterexample : createPathMatcher "/a/*2/b" "/a/b" = none := by
  decide

/-- C9 amended: for every single-count specifier (all-digit, no dash) the
parsed range is indeed `minCount = 0`, `maxCount = N`; but a counted wildcard
token is only recognized with a colon after the count (`*N:` or `*N:name`) —
`'*' :: digits` parses as no wildcard at all — and with the colon present the
zero-consumption match claimed for `/a/*2/b` does hold, e.g.
`/a/*2:x/b` matches `/a/b` via `createPathMatcher`, binding `x` to the empty
run. -/
theorem C9_single_count_wildcard (cs : List Char) (h1 : cs ≠ [])
    (h2 : cs.all Char.isDigit = true) :
    parseCounts cs = (0, digitsToNat cs)
  ∧ wildcardMatch ('*' :: cs) = none
  ∧ createPathMatcher "/a/*2:x/b" "/a/b" = some ([], [(['x'], [])]) := by
  refine ⟨?_, ?_, by decide⟩
  · unfold parseCounts
    rw [all_digit_no_dash cs h2]
    simp
  · have hsplit : splitOnChar ':' cs = [cs] :=
      splitOnChar_no_sep ':' cs
        (fun c hc => digit_ne (List.all_eq_true.mp h2 c hc) ':' (by decide))
    simp only [wildcardMatch, if_pos rfl, hsplit]
    simp

/-- C9 witness: the amended statement at the concrete count `2`. -/
theorem C9_single_count_wildcard_witness :
    parseCounts ['2'] = (0, 2)
  ∧ wildcardMatch ['*', '2'] = none
  ∧ createPathMatcher "/a/*2:x/b" "/a/b" = some ([], [(['x'], [])]) :=
  C9_single_count_wildcard ['2'] (by decide) (by decide)

/-!
Claim theorems: dispatch controller (C2, C4, C8).
-/

/-- C2 counterexample: a request-adapter construction failure is not
converted to a response — `respond` rejects with the re-thrown structured
error, so a per-request error does propagate to `respond`'s caller. -/
theorem C2_counterexample :
    respondM {}
        [("get", [⟨"/u", { pipeOutcome := .ok .other }⟩])]
        ⟨"GET", "/u", some "boom"⟩ =
      .error ⟨"Failed while initiating a Request: boom", some 500,
              some "REQUEST_INIT_FAILED",
              some "Verify the request body and headers are properly structured.",
              some 15⟩ := by
  decide

/-- Helper: `respondPipeline` as a case split on the validator verdicts — a
failing body validator yields the 400 body-issues response, otherwise a
failing query validator yields the 400 query-issues response, otherwise the
pipeline settlement is normalized or caught. -/
theorem respondPipeline_eq (cfg : DispCfg) (beh : RBehavior) :
    respondPipeline cfg beh =
      match bodyIssues beh.validate with
      | some iss =>
        ⟨400, [("content-type", "application/json")],
         .jsonIssues "Invalid request body" iss⟩
      | none =>
        match queryIssues beh.validate with
        | some iss =>
          ⟨400, [("content-type", "application/json")],
           .jsonIssues "Invalid query parameters" iss⟩
        | none =>
          match beh.pipeOutcome with
          | .ok result => normalizeThen cfg.securityHeaders beh.resAfter result
          | .error e => catchBranch cfg.errorHandler e := by
  obtain ⟨val, pipe, resA⟩ := beh
  cases val with
  | none => rfl
  | some v =>
    obtain ⟨vb, vq⟩ := v
    cases vb with
    | none =>
      cases vq with
      | none => rfl
      | some q => cases q <;> rfl
    | some b =>
      cases b with
      | success =>
        cases vq with
        | none => rfl
        | some q => cases q <;> rfl
      | failure iss => rfl

/-- C2 amended: with no custom error handler, errors with which the composed
middleware/handler pipeline rejects — whether or not validators are
configured, provided none reports failure — are caught by `respond` and
converted to the canonical JSON body `error`/`code`/`hint?`/`exit_code?`
with JS falsy coalescing (status `err.status || 500`, code
`err.code || 'UNKNOWN_ERROR'`, hint and exit_code dropped when falsy);
validator-reported failures yield direct 400 `error`/`issues` responses,
body checked before query, and the pipeline never runs; but an adapter
construction failure is re-thrown as a structured status-500
`REQUEST_INIT_FAILED` error that propagates out of `respond`. -/
theorem C2_errors_at_the_boundary (cfg : DispCfg)
    (table : List (String × List (RouteE RBehavior))) (req : ReqM)
    (m : MatchResultE RBehavior) (e : JsError) :
    (req.method ≠ "OPTIONS" →
      matchRouteM table (jsLower req.method) (stripSlash req.pathname) = some m →
      req.adapterFail = none →
      bodyIssues m.payload.validate = none →
      queryIssues m.payload.validate = none →
      m.payload.pipeOutcome = .error e → cfg.errorHandler = none →
      respondM cfg table req =
        .ok ⟨jsOrNat e.status 500, [("content-type", "application/json")],
             .jsonCanonical e.message (jsOrStr e.code "UNKNOWN_ERROR")
               (jsOrUndefStr e.hint) (jsOrUndefNat e.exitCode)⟩)
  ∧ (∀ iss, req.method ≠ "OPTIONS" →
      matchRouteM table (jsLower req.method) (stripSlash req.pathname) = some m →
      req.adapterFail = none →
      bodyIssues m.payload.validate = some iss →
      respondM cfg table req =
        .ok ⟨400, [("content-type", "application/json")],
             .jsonIssues "Invalid request body" iss⟩)
  ∧ (∀ iss, req.method ≠ "OPTIONS" →
      matchRouteM table (jsLower req.method) (stripSlash req.pathname) = some m →
      req.adapterFail = none →
      bodyIssues m.payload.validate = none →
      queryIssues m.payload.validate = some iss →
      respondM cfg table req =
        .ok ⟨400, [("content-type", "application/json")],
             .jsonIssues "Invalid query parameters" iss⟩)
  ∧ (∀ msg, req.method ≠ "OPTIONS" →
      matchRouteM table (jsLower req.method) (stripSlash req.pathname) = some m →
      req.adapterFail = some msg →
      respondM cfg table req =
        .error (createErrorD ("Failed while initiating a Request: " ++ msg) 500
          "REQUEST_INIT_FAILED" 15
          (some "Verify the request body and headers are properly structured."))) := by
  refine ⟨?_, ?_, ?_, ?_⟩
  · intro hOpt hMatch hAd hB hQ hPipe hEh
    simp [respondM, hOpt, hMatch, hAd, respondPipeline_eq, hB, hQ, hPipe,
      catchBranch, hEh]
  · intro iss hOpt hMatch hAd hB
    simp [respondM, hOpt, hMatch, hAd, respondPipeline_eq, hB]
  · intro iss hOpt hMatch hAd hB hQ
    simp [respondM, hOpt, hMatch, hAd, respondPipeline_eq, hB, hQ]
  · intro msg hOpt hMatch hAd
    simp [respondM, hOpt, hMatch, hAd]

/-- C2 witness: all four parts of the amended statement at concrete inputs —
a teapot error thrown by the pipeline becomes a 418 canonical JSON response,
a failing body validator yields the 400 body-issues response, a failing
query validator (after a passing body validator) yields the 400 query-issues
response, and a failing adapter construction makes `respond` reject. -/
theorem C2_errors_at_the_boundary_witness :
    respondM {}
        [("get", [⟨"/u", { pipeOutcome := .error ⟨"bad", some 418, some "TEAPOT", none, some 3⟩ }⟩])]
        ⟨"GET", "/u", none⟩ =
      .ok ⟨418, [("content-type", "application/json")],
           .jsonCanonical "bad" "TEAPOT" none (some 3)⟩
  ∧ respondM {}
        [("get", [⟨"/v", { validate := some { body := some (.failure "bad body") },
                           pipeOutcome := .error ⟨"x", none, none, none, none⟩ }⟩])]
        ⟨"GET", "/v", none⟩ =
      .ok ⟨400, [("content-type", "application/json")],
           .jsonIssues "Invalid request body" "bad body"⟩
  ∧ respondM {}
        [("get", [⟨"/w", { validate := some { body := some .success,
                                              query := some (.failure "bad query") },
                           pipeOutcome := .error ⟨"x", none, none, none, none⟩ }⟩])]
        ⟨"GET", "/w", none⟩ =
      .ok ⟨400, [("content-type", "application/json")],
           .jsonIssues "Invalid query parameters" "bad query"⟩
  ∧ respondM {}
        [("get", [⟨"/u", { pipeOutcome := .ok .other }⟩])]
        ⟨"GET", "/u", some "oops"⟩ =
      .error (createErrorD "Failed while initiating a Request: oops" 500
        "REQUEST_INIT_FAILED" 15
        (some "Verify the request body and headers are properly structured.")) :=
  ⟨(C2_errors_at_the_boundary {}
      [("get", [⟨"/u", { pipeOutcome := .error ⟨"bad", some 418, some "TEAPOT", none, some 3⟩ }⟩])]
      ⟨"GET", "/u", none⟩
      ⟨{ pipeOutcome := .error ⟨"bad", some 418, some "TEAPOT", none, some 3⟩ }, [], []⟩
      ⟨"bad", some 418, some "TEAPOT", none, some 3⟩).1
      (by decide) (by decide) rfl rfl rfl rfl rfl,
   (C2_errors_at_the_boundary {}
      [("get", [⟨"/v", { validate := some { body := some (.failure "bad body") },
                         pipeOutcome := .error ⟨"x", none, none, none, none⟩ }⟩])]
      ⟨"GET", "/v", none⟩
      ⟨{ validate := some { body := some (.failure "bad body") },
         pipeOutcome := .error ⟨"x", none, none, none, none⟩ }, [], []⟩
      ⟨"", none, none, none, none⟩).2.1 "bad body"
      (by decide) (by decide) rfl rfl,
   (C2_errors_at_the_boundary {}
      [("get", [⟨"/w", { validate := some { body := some .success,
                                            query := some (.failure "bad query") },
                         pipeOutcome := .error ⟨"x", none, none, none, none⟩ }⟩])]
      ⟨"GET", "/w", none⟩
      ⟨{ validate := some { body := some .success,
                            query := some (.failure "bad query") },
         pipeOutcome := .error ⟨"x", none, none, none, none⟩ }, [], []⟩
      ⟨"", none, none, none, none⟩).2.2.1 "bad query"
      (by decide) (by decide) rfl rfl rfl,
   (C2_errors_at_the_boundary {}
      [("get", [⟨"/u", { pipeOutcome := .ok .other }⟩])]
      ⟨"GET", "/u", some "oops"⟩
      ⟨{ pipeOutcome := .ok .other }, [], []⟩
      ⟨"", none, none, none, none⟩).2.2.2 "oops"
      (by decide) (by decide) rfl⟩

/-- Helper: `Headers.set` makes the assigned value the one observed under
lookup, whatever the prior headers contained. -/
theorem hdrGet_hdrSet (base : HdrS) (k v : String) :
    hdrGet (hdrSet base k v) k = some v := by
  unfold hdrSet hdrGet
  induction base with
  | nil => simp [hdrSetGo, List.find?]
  | cons hd tl ih =>
    by_cases hk : hd.1 = jsLower k
    · simp [hdrSetGo, hk, List.find?]
    · simp only [hdrSetGo, if_neg hk]
      simpa [List.find?, hk] using ih

/-- C4 counterexample: with security header `X-Frame-Options: DENY`
configured, a plain-object handler return is serialized as a 200 JSON
response carrying no headers at all — the configured header is not merged —
and for a builder return that already carries `x-frame-options: SAMEORIGIN`
the configured value overwrites it although no overwrite opt-in exists. -/
theorem C4_counterexample :
    respondM { securityHeaders := [("X-Frame-Options", "DENY")] }
        [("get", [⟨"/p", { pipeOutcome := .ok (.plainObj [("a", "b")]) }⟩])]
        ⟨"GET", "/p", none⟩ = .ok ⟨200, [], .jsonObj [("a", "b")]⟩
  ∧ (respondM { securityHeaders := [("X-Frame-Options", "DENY")] }
        [("get", [⟨"/p", { pipeOutcome := .ok (.builder
            { headers := [("x-frame-options", "SAMEORIGIN")], data := .str "hi" }) }⟩])]
        ⟨"GET", "/p", none⟩).map (fun r => hdrGet r.headers "X-Frame-Options") =
      .ok (some "DENY") :=
  ⟨by decide, by decide⟩

/-- C4 amended: the fulfilled branch of `respond` folds every configured
security header into the final header set with `Headers.set` — so a
configured header always wins over any header already present, there being
no overwrite opt-out — for results normalized through the Response-instance,
ResponseBuilder, and Error branches, and likewise for the res-ended branch
that adopts the builder's stored raw response; but a plain-object result is
returned early as a bare 200 JSON response and the missing-result fallback
is returned early as a bare 204, both skipping injection entirely. -/
theorem C4_security_header_injection (sec : List (String × String))
    (rs : BuilderM) (r : ResponseM) (e : JsError) (b : BuilderM)
    (o : List (String × String)) :
    normalizeThen sec rs (.resp r) = ⟨r.status, injectSec sec [], r.body⟩
  ∧ normalizeThen sec rs (.builder b) =
      ⟨(builderEnd b .jsNull).1.status,
       injectSec sec (builderEnd b .jsNull).1.headers,
       (builderEnd b .jsNull).1.body⟩
  ∧ (rs.ended = false → normalizeThen sec rs (.plainObj o) = ⟨200, [], .jsonObj o⟩)
  ∧ (rs.ended = false →
      normalizeThen sec rs (.errObj e) = ⟨500, injectSec sec [], .jsonErrObj e⟩)
  ∧ (∀ base k v, hdrGet (hdrSet base k v) k = some v)
  ∧ (rs.ended = true → ∀ fr, rs.rawResponse = some fr →
      normalizeThen sec rs .other = ⟨fr.status, injectSec sec fr.headers, fr.body⟩)
  ∧ (rs.ended = false → normalizeThen sec rs .other = ⟨204, [], .empty⟩) := by
  refine ⟨rfl, rfl, ?_, ?_, fun base k v => hdrGet_hdrSet base k v, ?_, ?_⟩
  · intro hEnd
    simp [normalizeThen, hEnd]
  · intro hEnd
    simp [normalizeThen, hEnd]
  · intro hEnd fr hraw
    simp [normalizeThen, hEnd, hraw]
  · intro hEnd
    simp [normalizeThen, hEnd]

/-- C4 witness: the amended statement at concrete inputs, covering the
Response-instance injection, the bare plain-object early return, the
`Headers.set` overwrite, the res-ended raw-response injection, and the
bare 204 fallback. -/
theorem C4_security_header_injection_witness :
    normalizeThen [("X-Frame-Options", "DENY")] {} (.resp ⟨201, [("a", "b")], .text "t"⟩) =
      ⟨201, injectSec [("X-Frame-Options", "DENY")] [], .text "t"⟩
  ∧ normalizeThen [("X-Frame-Options", "DENY")] {} (.plainObj [("a", "b")]) =
      ⟨200, [], .jsonObj [("a", "b")]⟩
  ∧ hdrGet (hdrSet [("x-frame-options", "SAMEORIGIN")] "X-Frame-Options" "DENY")
      "X-Frame-Options" = some "DENY"
  ∧ normalizeThen [("X-Frame-Options", "DENY")]
      { ended := true, rawResponse := some ⟨201, [("x-old", "y")], .text "r"⟩ } .other =
      ⟨201, injectSec [("X-Frame-Options", "DENY")] [("x-old", "y")], .text "r"⟩
  ∧ normalizeThen [("X-Frame-Options", "DENY")] {} .other = ⟨204, [], .empty⟩ := by
  have h := C4_security_header_injection [("X-Frame-Options", "DENY")] {}
    ⟨201, [("a", "b")], .text "t"⟩ ⟨"", none, none, none, none⟩ {} [("a", "b")]
  have h2 := C4_security_header_injection [("X-Frame-Options", "DENY")]
    { ended := true, rawResponse := some ⟨201, [("x-old", "y")], .text "r"⟩ }
    ⟨201, [("a", "b")], .text "t"⟩ ⟨"", none, none, none, none⟩ {} [("a", "b")]
  exact ⟨h.1, h.2.2.1 rfl,
    h.2.2.2.2.1 [("x-frame-options", "SAMEORIGIN")] "X-Frame-Options" "DENY",
    h2.2.2.2.2.2.1 rfl ⟨201, [("x-old", "y")], .text "r"⟩ rfl,
    h.2.2.2.2.2.2 rfl⟩

/-- C8: an OPTIONS request is answered immediately with an empty 204 carrying
the permissive CORS headers, for every dispatcher configuration and every
route table — in particular the answer is independent of any route registered
for method `options`, which is therefore never consulted or executed. -/
theorem C8_options_short_circuit (cfg : DispCfg)
    (table : List (String × List (RouteE RBehavior))) (req : ReqM)
    (h : req.method = "OPTIONS") :
    respondM cfg table req =
      .ok ⟨204, [("access-control-allow-origin", "*"),
                 ("access-control-allow-methods", "GET,POST,PUT,PATCH,DELETE,OPTIONS"),
                 ("access-control-allow-headers", "Content-Type")], .text ""⟩ := by
  simp [respondM, h]
  decide

/-- C8 witness: a table with a route registered for method `options` via
`all('/x', ...)` is ignored by an OPTIONS request to the same path. -/
theorem C8_options_short_circuit_witness :
    respondM {}
        [("options", [⟨"/x", { pipeOutcome := .ok (.plainObj [("hit", "yes")]) }⟩])]
        ⟨"OPTIONS", "/x", none⟩ =
      .ok ⟨204, [("access-control-allow-origin", "*"),
                 ("access-control-allow-methods", "GET,POST,PUT,PATCH,DELETE,OPTIONS"),
                 ("access-control-allow-headers", "Content-Type")], .text ""⟩ :=
  C8_options_short_circuit {}
    [("options", [⟨"/x", { pipeOutcome := .ok (.plainObj [("hit", "yes")]) }⟩])]
    ⟨"OPTIONS", "/x", none⟩ rfl

/-!
Claim theorems: middleware composition (C5).
-/

/-- Helper: from any position `i` on, a chain of middlewares that each call
`next()` exactly once runs every remaining middleware and then the final
handler, once each in ascending order, ending with the index at the chain
length. -/
theorem dispatch_all_once (mws : List MwBody) (i0 : Nat)
    (hall : ∀ j, i0 ≤ j → j < mws.length → mws.get? j = some onceB) :
    ∀ (f i : Nat) (st : PipeSt), i0 ≤ i → st.index < (i : Int) → i ≤ mws.length →
      mws.length + 1 ≤ f + i →
      dispatchF mws f i st =
        .ok ⟨(mws.length : Int),
             st.trace ++ (List.range' i (mws.length - i)).map PipeEv.mw ++ [PipeEv.hnd]⟩ := by
  intro f
  induction f with
  | zero => intro i st h0 h1 h2 h3; omega
  | succ f ih =>
    intro i st hi0 hidx hle hfuel
    rw [dispatchF, if_neg (Int.not_le.mpr hidx)]
    rcases Nat.lt_or_ge i mws.length with hlt | hge
    · rw [hall i hi0 hlt]
      show runMwBody (dispatchF mws f (i + 1)) onceB ⟨(i : Int), st.trace ++ [PipeEv.mw i]⟩ =
        .ok ⟨(mws.length : Int),
             st.trace ++ (List.range' i (mws.length - i)).map PipeEv.mw ++ [PipeEv.hnd]⟩
      rw [onceB, runMwBody,
        ih (i + 1) ⟨(i : Int), st.trace ++ [PipeEv.mw i]⟩ (by omega)
          (by exact_mod_cast Int.lt_add_one_of_le le_rfl) (by omega) (by omega)]
      have hrange : List.range' i (mws.length - i) =
          i :: List.range' (i + 1) (mws.length - (i + 1)) := by
        have h9 : mws.length - i = (mws.length - (i + 1)) + 1 := by omega
        rw [h9, List.range'_succ]
      simp [runMwBody, hrange]
    · have hi : i = mws.length := le_antisymm hle hge
      subst hi
      have hget : mws.get? mws.length = none := by
        rw [List.get?_eq_none]
      rw [hget]
      show (if mws.length = mws.length then _ else _) = _
      rw [if_pos rfl]
      simp [Nat.sub_self]

/-- Helper: if the middleware at position `p` calls its continuation a second
time after the rest of the chain has run, the pipeline rejects with the
`next() called multiple times` error, which propagates through every earlier
middleware. -/
theorem dispatch_double_next (mws : List MwBody) (p : Nat)
    (hplen : p < mws.length)
    (hpre : ∀ j, j < p → mws.get? j = some onceB)
    (hp : mws.get? p = some twiceB)
    (hsuf : ∀ j, p < j → j < mws.length → mws.get? j = some onceB) :
    ∀ (f i : Nat) (st : PipeSt), i ≤ p → st.index < (i : Int) →
      mws.length + 2 ≤ f + i →
      dispatchF mws f i st = .error "next() called multiple times" := by
  intro f
  induction f with
  | zero => intro i st h1 h2 h3; omega
  | succ f ih =>
    intro i st hip hidx hfuel
    rw [dispatchF, if_neg (Int.not_le.mpr hidx)]
    rcases Nat.lt_or_ge i p with hlt | hge
    · rw [hpre i hlt]
      show runMwBody (dispatchF mws f (i + 1)) onceB ⟨(i : Int), st.trace ++ [PipeEv.mw i]⟩ =
        .error "next() called multiple times"
      rw [onceB, runMwBody,
        ih (i + 1) ⟨(i : Int), st.trace ++ [PipeEv.mw i]⟩ (by omega)
          (by exact_mod_cast Int.lt_add_one_of_le le_rfl) (by omega)]
    · have hi : i = p := le_antisymm hip hge
      subst hi
      rw [hp]
      show runMwBody (dispatchF mws f (i + 1)) twiceB ⟨(i : Int), st.trace ++ [PipeEv.mw i]⟩ =
        .error "next() called multiple times"
      rw [twiceB, runMwBody,
        dispatch_all_once mws (i + 1) (fun j hj hjl => hsuf j hj hjl) f (i + 1)
          ⟨(i : Int), st.trace ++ [PipeEv.mw i]⟩ le_rfl
          (by exact_mod_cast Int.lt_add_one_of_le le_rfl) (by omega) (by omega)]
      obtain ⟨f', rfl⟩ : ∃ f', f = f' + 1 := ⟨f - 1, by omega⟩
      have hc : ((i + 1 : Nat) : Int) ≤ (mws.length : Int) := by
        exact_mod_cast (by omega : i + 1 ≤ mws.length)
      simp only [runMwBody, dispatchF, hc, if_true]

/-- C5: when every middleware in the chain invokes its continuation exactly
once, the composed pipeline runs middleware 0 through k-1 and then the final
handler, exactly once each and in that order (the recorded trace is exactly
`mw 0, ..., mw (k-1), hnd`); and whenever any one middleware at position `p`
invokes the continuation a second time after the chain has advanced past it,
the pipeline fails with the source's "next() called multiple times" error. -/
theorem C5_compose_pipeline (k p q : Nat) :
    composeExec (List.replicate k onceB) =
      .ok ⟨(k : Int), (List.range' 0 k).map PipeEv.mw ++ [PipeEv.hnd]⟩
  ∧ composeExec (List.replicate p onceB ++ twiceB :: List.replicate q onceB) =
      .error "next() called multiple times" := by
  constructor
  · have h := dispatch_all_once (List.replicate k onceB) 0
      (fun j _ hjl => by
        simp only [List.length_replicate] at hjl
        simp [hjl])
      ((List.replicate k onceB).length + 2) 0 ⟨-1, []⟩ (Nat.zero_le 0)
      (by norm_num) (Nat.zero_le _) (by omega)
    rw [composeExec, h]
    simp
  · have hlen : (List.replicate p onceB ++ twiceB :: List.replicate q onceB).length =
        p + 1 + q := by simp; omega
    have hpre : ∀ j, j < p →
        (List.replicate p onceB ++ twiceB :: List.replicate q onceB).get? j = some onceB := by
      intro j hj
      rw [List.get?_eq_getElem?, List.getElem?_append_left (by simpa using hj)]
      simp [hj]
    have hp : (List.replicate p onceB ++ twiceB :: List.replicate q onceB).get? p =
        some twiceB := by
      rw [List.get?_eq_getElem?, List.getElem?_append_right (by simp)]
      simp
    have hsuf : ∀ j, p < j →
        j < (List.replicate p onceB ++ twiceB :: List.replicate q onceB).length →
        (List.replicate p onceB ++ twiceB :: List.replicate q onceB).get? j = some onceB := by
      intro j hj hjl
      rw [hlen] at hjl
      rw [List.get?_eq_getElem?, List.getElem?_append_right (by simp; omega)]
      have hm : j - (List.replicate p onceB).length = (j - p - 1) + 1 := by simp; omega
      rw [hm]
      simp [List.getElem?_replicate_of_lt (show j - p - 1 < q by omega)]
    have h := dispatch_double_next _ p (by rw [hlen]; omega) hpre hp hsuf
      ((List.replicate p onceB ++ twiceB :: List.replicate q onceB).length + 2) 0 ⟨-1, []⟩
      (Nat.zero_le p) (by norm_num) (by omega)
    rw [composeExec, h]

/-!
Claim theorems: resolver sequential behaviour (C7, C10).
-/

/-- Helper: `Map.set` followed by `Map.get` of the same key yields the stored
value. -/
theorem mapGet_mapSet {β : Type} (m : List (JsVal × β)) (k : JsVal) (v : β) :
    mapGet (mapSet m k v) k = some v := by
  induction m with
  | nil => simp [mapSet, mapGet, List.find?]
  | cons hd tl ih =>
    by_cases hk : hd.1 = k
    · simp [mapSet, hk, mapGet, List.find?]
    · simp only [mapSet, if_neg hk]
      simpa [mapGet, List.find?, hk] using ih

/-- Helper: `Map.set` of one key leaves `Map.get` of a different key
unchanged. -/
theorem mapGet_mapSet_ne {β : Type} (m : List (JsVal × β)) (k k' : JsVal)
    (v : β) (h : k ≠ k') : mapGet (mapSet m k' v) k = mapGet m k := by
  induction m with
  | nil => simp [mapSet, mapGet, List.find?, Ne.symm h]
  | cons hd tl ih =>
    by_cases hk : hd.1 = k'
    · simp [mapSet, hk, mapGet, List.find?, Ne.symm h, hk ▸ Ne.symm h]
    · simp only [mapSet, if_neg hk]
      by_cases hh : hd.1 = k
      · simp [mapGet, List.find?, hh]
      · simpa [mapGet, List.find?, hh] using ih

/-- Helper: `add` with a truthy key and a truthy non-async value takes the
static branch, storing only a resolved entry (no purge, no producer). -/
theorem addR_static (st : ResolverSt) (o : AddArg) (hk : truthy o.key = true)
    (hv : truthy o.value = true) (hna : ∀ fid, o.value ≠ .vfuncAsync fid) :
    addR st o =
      ({ st with
          resolvedValues := mapSet st.resolvedValues o.key ⟨o.key, o.adapterId, o.value⟩ },
       o) := by
  have hcond : (truthy o.value && truthy o.key) = true := by rw [hv, hk]; rfl
  unfold addR
  rw [if_pos hcond]
  cases hval : o.value with
  | vfuncAsync fid => exact absurd hval (hna fid)
  | vundef => rfl
  | vnull => rfl
  | vbool b => rfl
  | vnum n => rfl
  | vstr s => rfl
  | vfuncPlain fid => rfl
  | vobjRef rid => rfl

/-- Helper: `get` on a key that has a non-null resolved value and no
registered producer returns the cached value and changes nothing — the purge
check is tied to the producer entry and is skipped entirely. -/
theorem getR_static (env : JsEnv) (st : ResolverSt) (key : JsVal) (e : RVEntry)
    (hnl : mapGet st.promisedValues key = none)
    (hres : mapGet st.resolvedValues key = some e) (hv : e.value ≠ .vnull) :
    getR env st key = (e.value, st) := by
  simp [getR, hnl, hres, hv]

/-- C7 counterexample: a static entry added with an always-true purge
predicate: the predicate is dropped (`_promisedValues` stays empty), and
`get` returns the stored value unchanged with no reload — whereas the claim
says an entry whose purge predicate returns true is reloaded before being
returned (a reload of a producer-less key returns null). -/
theorem C7_counterexample :
    (addR {} { key := .vstr "k", value := .vstr "x", purgeId := some 0 }).1.promisedValues = []
  ∧ getR ⟨fun _ => .vnull, fun _ v => v, fun _ _ => true⟩
        (addR {} { key := .vstr "k", value := .vstr "x", purgeId := some 0 }).1 (.vstr "k") =
      (.vstr "x", (addR {} { key := .vstr "k", value := .vstr "x", purgeId := some 0 }).1)
  ∧ reloadR ⟨fun _ => .vnull, fun _ v => v, fun _ _ => true⟩
        (addR {} { key := .vstr "k", value := .vstr "x", purgeId := some 0 }).1 (.vstr "k") =
      (.vnull, (addR {} { key := .vstr "k", value := .vstr "x", purgeId := some 0 }).1) :=
  ⟨rfl, rfl, rfl⟩

/-- C7 amended: for a registered-static entry (truthy key, truthy non-async
value) the purge predicate passed to `add` is discarded — the static branch
stores no producer entry — so as long as no producer is separately registered
under the key, `get` returns the stored value unchanged with no purge check
and no reload, whatever the purge predicate computes. -/
theorem C7_static_purge_ignored (env : JsEnv) (st : ResolverSt) (o : AddArg)
    (hk : truthy o.key = true) (hv : truthy o.value = true)
    (hna : ∀ fid, o.value ≠ .vfuncAsync fid) (hnn : o.value ≠ .vnull)
    (hnl : mapGet st.promisedValues o.key = none) :
    (addR st o).1.promisedValues = st.promisedValues
  ∧ getR env (addR st o).1 o.key = (o.value, (addR st o).1) := by
  rw [addR_static st o hk hv hna]
  refine ⟨rfl, ?_⟩
  exact getR_static env _ o.key ⟨o.key, o.adapterId, o.value⟩ hnl
    (mapGet_mapSet st.resolvedValues o.key ⟨o.key, o.adapterId, o.value⟩) hnn

/-- C7 witness: the amended statement at a concrete static entry carrying an
always-true purge predicate. -/
theorem C7_static_purge_ignored_witness :
    (addR {} { key := .vstr "w", value := .vstr "v", purgeId := some 5 }).1.promisedValues = []
  ∧ getR ⟨fun _ => .vnull, fun _ v => v, fun _ _ => true⟩
        (addR {} { key := .vstr "w", value := .vstr "v", purgeId := some 5 }).1 (.vstr "w") =
      (.vstr "v", (addR {} { key := .vstr "w", value := .vstr "v", purgeId := some 5 }).1) :=
  C7_static_purge_ignored ⟨fun _ => .vnull, fun _ v => v, fun _ _ => true⟩ {}
    { key := .vstr "w", value := .vstr "v", purgeId := some 5 }
    (by decide) (by decide) (fun fid h => JsVal.noConfusion h) (fun h => JsVal.noConfusion h)
    rfl

/-- C10 counterexample: for an argument whose value is falsy but whose key is
truthy and already registered, `add` is indeed a no-op returning its
argument, but a subsequent `get` for that key returns the previously stored
value, not null. -/
theorem C10_counterexample :
    addR (addR {} { key := .vstr "k", value := .vstr "old" }).1
        { key := .vstr "k", value := .vnum 0 } =
      ((addR {} { key := .vstr "k", value := .vstr "old" }).1,
       { key := .vstr "k", value := .vnum 0 })
  ∧ (getR ⟨fun _ => .vnull, fun _ v => v, fun _ _ => false⟩
        (addR {} { key := .vstr "k", value := .vstr "old" }).1 (.vstr "k")).1 =
      .vstr "old"
  ∧ (getR ⟨fun _ => .vnull, fun _ v => v, fun _ _ => false⟩
        (addR {} { key := .vstr "k", value := .vstr "old" }).1 (.vstr "k")).1 ≠
      .vnull :=
  ⟨rfl, rfl, fun h => JsVal.noConfusion h⟩

/-- C10 amended: `add` with a falsy key or falsy value leaves all three maps
unchanged and returns its argument; a subsequent `get` for such a key returns
null provided the key is absent from `_resolvedValues` — which is guaranteed
for a falsy key, since no `add` ever creates or alters an entry under a
falsy key. -/
theorem C10_falsy_add_noop (env : JsEnv) (st st2 : ResolverSt) (o o2 : AddArg)
    (hfalsy : truthy o.key = false ∨ truthy o.value = false) :
    addR st o = (st, o)
  ∧ (mapGet st.resolvedValues o.key = none → getR env st o.key = (.vnull, st))
  ∧ (truthy o.key = false →
      mapGet (addR st2 o2).1.resolvedValues o.key = mapGet st2.resolvedValues o.key) := by
  refine ⟨?_, ?_, ?_⟩
  · unfold addR
    rcases hfalsy with h | h <;> simp [h]
  · intro habs
    simp [getR, habs]
  · intro hkf
    by_cases hcond : (truthy o2.value && truthy o2.key) = true
    · have hkt : truthy o2.key = true := (Bool.and_eq_true_iff.mp hcond).2
      have hne : o.key ≠ o2.key := fun he => by
        rw [he, hkt] at hkf
        exact absurd hkf (by decide)
      obtain ⟨okey2, oval2, oad2, opg2⟩ := o2
      simp only at hkt hne hcond
      simp only [addR, hcond, if_true]
      cases oval2 <;>
        simp only [] <;>
        exact mapGet_mapSet_ne st2.resolvedValues o.key okey2 _ hne
    · unfold addR
      rw [if_neg hcond]

/-- C10 witness: the amended statement at a concrete falsy-value argument
against a concrete populated state. -/
theorem C10_falsy_add_noop_witness :
    addR (addR {} { key := .vstr "p", value := .vstr "q" }).1
        { key := .vstr "z", value := .vnum 0 } =
      ((addR {} { key := .vstr "p", value := .vstr "q" }).1,
       { key := .vstr "z", value := .vnum 0 })
  ∧ getR ⟨fun _ => .vnull, fun _ v => v, fun _ _ => false⟩
        (addR {} { key := .vstr "p", value := .vstr "q" }).1 (.vstr "z") =
      (.vnull, (addR {} { key := .vstr "p", value := .vstr "q" }).1) := by
  have h := C10_falsy_add_noop ⟨fun _ => .vnull, fun _ v => v, fun _ _ => false⟩
    (addR {} { key := .vstr "p", value := .vstr "q" }).1 {}
    { key := .vstr "z", value := .vnum 0 } { key := .vstr "p", value := .vstr "q" }
    (Or.inr (by decide))
  exact ⟨h.1, h.2.1 rfl⟩

/-!
Claim theorems: resolver concurrency (C3).
-/
/-- A program counter only ever finishes with the adapted value. -/
def adaptedOk (a : Nat) (pc : TPC) : Prop :=
  ∀ v, pc = .finished v → v = some a

/-- A waiting program counter awaits a load that has really been started. -/
def wgenOk (inv : Nat) (pc : TPC) : Prop :=
  ∀ g, pc = .waiting g → 1 ≤ g ∧ g ≤ inv

theorem wgenOk_mono {inv inv' : Nat} (h : inv ≤ inv') {pc : TPC}
    (hw : wgenOk inv pc) : wgenOk inv' pc :=
  fun g hg => ⟨(hw g hg).1, le_trans (hw g hg).2 h⟩

/-- The inductive invariant of the concurrency model. -/
def InvC (a : Nat) (st : CState) : Prop :=
  st.invocations ≤ st.completedGen + 1
  ∧ st.completedGen ≤ st.invocations
  ∧ (st.resolvedVal = none ∨ st.resolvedVal = some a)
  ∧ (1 ≤ st.completedGen → st.resolvedVal = some a)
  ∧ adaptedOk a st.pc0 ∧ adaptedOk a st.pc1
  ∧ wgenOk st.invocations st.pc0 ∧ wgenOk st.invocations st.pc1

theorem callerStep_spec (isR : Bool) (a : Nat) (st : CState) (pc : TPC)
    (h1 : st.invocations ≤ st.completedGen + 1) (h2 : st.completedGen ≤ st.invocations)
    (h3 : st.resolvedVal = none ∨ st.resolvedVal = some a)
    (h4 : 1 ≤ st.completedGen → st.resolvedVal = some a)
    (hA : adaptedOk a pc) (hW : wgenOk st.invocations pc) :
    (callerStep isR st pc a).2.resolvedVal = st.resolvedVal
  ∧ (callerStep isR st pc a).2.completedGen = st.completedGen
  ∧ (callerStep isR st pc a).2.pc0 = st.pc0
  ∧ (callerStep isR st pc a).2.pc1 = st.pc1
  ∧ st.invocations ≤ (callerStep isR st pc a).2.invocations
  ∧ (callerStep isR st pc a).2.invocations ≤ (callerStep isR st pc a).2.completedGen + 1
  ∧ adaptedOk a (callerStep isR st pc a).1
  ∧ wgenOk (callerStep isR st pc a).2.invocations (callerStep isR st pc a).1
  ∧ (isR = false → st.invocations = 0 ∨
      (callerStep isR st pc a).2.invocations = st.invocations) := by
  obtain ⟨rv, inv, comp, p0, p1⟩ := st
  simp only at h1 h2 h3 h4 hW
  cases pc with
  | ready =>
    cases isR with
    | true =>
      by_cases hp : pendingC ⟨rv, inv, comp, p0, p1⟩
      · have hstep : callerStep true ⟨rv, inv, comp, p0, p1⟩ .ready a =
            (.waiting inv, ⟨rv, inv, comp, p0, p1⟩) := by
          simp only [callerStep, if_pos hp]
        rw [hstep]
        simp only [pendingC, decide_eq_true_eq] at hp
        exact ⟨rfl, rfl, rfl, rfl, le_rfl, h1,
          fun v hv => TPC.noConfusion hv,
          fun g hg => by cases hg; exact ⟨by omega, le_rfl⟩,
          fun hfalse => Bool.noConfusion hfalse⟩
      · have hstep : callerStep true ⟨rv, inv, comp, p0, p1⟩ .ready a =
            (.waiting (inv + 1), ⟨rv, inv + 1, comp, p0, p1⟩) := by
          simp only [callerStep, if_neg hp]
        rw [hstep]
        simp only [pendingC, decide_eq_true_eq, Nat.not_lt] at hp
        exact ⟨rfl, rfl, rfl, rfl, (show inv ≤ inv + 1 by omega),
          (show inv + 1 ≤ comp + 1 by omega),
          fun v hv => TPC.noConfusion hv,
          fun g hg => by cases hg; exact ⟨(show 1 ≤ inv + 1 by omega), le_rfl⟩,
          fun hfalse => Bool.noConfusion hfalse⟩
    | false =>
      rcases h3 with hr | hr
      · subst hr
        by_cases hp : pendingC ⟨none, inv, comp, p0, p1⟩
        · have hstep : callerStep false ⟨none, inv, comp, p0, p1⟩ .ready a =
              (.waiting inv, ⟨none, inv, comp, p0, p1⟩) := by
            simp only [callerStep, if_pos hp]
          rw [hstep]
          simp only [pendingC, decide_eq_true_eq] at hp
          exact ⟨rfl, rfl, rfl, rfl, le_rfl, h1,
            fun v hv => TPC.noConfusion hv,
            fun g hg => by cases hg; exact ⟨by omega, le_rfl⟩,
            fun _ => Or.inr rfl⟩
        · have hstep : callerStep false ⟨none, inv, comp, p0, p1⟩ .ready a =
              (.waiting (inv + 1), ⟨none, inv + 1, comp, p0, p1⟩) := by
            simp only [callerStep, if_neg hp]
          rw [hstep]
          simp only [pendingC, decide_eq_true_eq, Nat.not_lt] at hp
          have hc0 : comp = 0 := by
            by_contra hc
            exact Option.noConfusion (h4 (by omega))
          exact ⟨rfl, rfl, rfl, rfl, (show inv ≤ inv + 1 by omega),
            (show inv + 1 ≤ comp + 1 by omega),
            fun v hv => TPC.noConfusion hv,
            fun g hg => by cases hg; exact ⟨(show 1 ≤ inv + 1 by omega), le_rfl⟩,
            fun _ => Or.inl (show inv = 0 by omega)⟩
      · subst hr
        have hstep : callerStep false ⟨some a, inv, comp, p0, p1⟩ .ready a =
            (.finished (some a), ⟨some a, inv, comp, p0, p1⟩) := by
          simp only [callerStep]
        rw [hstep]
        exact ⟨rfl, rfl, rfl, rfl, le_rfl, h1,
          fun v hv => by cases hv; rfl,
          fun g hg => TPC.noConfusion hg,
          fun _ => Or.inr rfl⟩
  | waiting g =>
    by_cases hg : g ≤ comp
    · have hstep : callerStep isR ⟨rv, inv, comp, p0, p1⟩ (.waiting g) a =
          (.finished (some a), ⟨rv, inv, comp, p0, p1⟩) := by
        simp only [callerStep, if_pos hg]
      rw [hstep]
      exact ⟨rfl, rfl, rfl, rfl, le_rfl, h1,
        fun v hv => by cases hv; rfl,
        fun g' hg' => TPC.noConfusion hg',
        fun _ => Or.inr rfl⟩
    · have hstep : callerStep isR ⟨rv, inv, comp, p0, p1⟩ (.waiting g) a =
          (.waiting g, ⟨rv, inv, comp, p0, p1⟩) := by
        simp only [callerStep, if_neg hg]
      rw [hstep]
      exact ⟨rfl, rfl, rfl, rfl, le_rfl, h1, hA, hW, fun _ => Or.inr rfl⟩
  | finished v =>
    have hstep : callerStep isR ⟨rv, inv, comp, p0, p1⟩ (.finished v) a =
        (.finished v, ⟨rv, inv, comp, p0, p1⟩) := rfl
    rw [hstep]
    exact ⟨rfl, rfl, rfl, rfl, le_rfl, h1, hA, hW, fun _ => Or.inr rfl⟩

theorem stepC_preserves (k0 k1 : Bool) (a : Nat) (st : CState) (who : TaskId)
    (h : InvC a st) : InvC a (stepC k0 k1 a st who) := by
  obtain ⟨h1, h2, h3, h4, h5, h6, h7, h8⟩ := h
  cases who with
  | caller0 =>
    obtain ⟨e1, e2, e3, e4, e5, e6, e7, e8, _⟩ :=
      callerStep_spec k0 a st st.pc0 h1 h2 h3 h4 h5 h7
    refine ⟨e6, ?_, ?_, ?_, e7, ?_, e8, ?_⟩
    · show (callerStep k0 st st.pc0 a).2.completedGen ≤
        (callerStep k0 st st.pc0 a).2.invocations
      omega
    · show (callerStep k0 st st.pc0 a).2.resolvedVal = none ∨
        (callerStep k0 st st.pc0 a).2.resolvedVal = some a
      rw [e1]; exact h3
    · show 1 ≤ (callerStep k0 st st.pc0 a).2.completedGen →
        (callerStep k0 st st.pc0 a).2.resolvedVal = some a
      rw [e1, e2]; exact h4
    · show adaptedOk a (callerStep k0 st st.pc0 a).2.pc1
      rw [e4]; exact h6
    · show wgenOk (callerStep k0 st st.pc0 a).2.invocations (callerStep k0 st st.pc0 a).2.pc1
      rw [e4]; exact wgenOk_mono e5 h8
  | caller1 =>
    obtain ⟨e1, e2, e3, e4, e5, e6, e7, e8, _⟩ :=
      callerStep_spec k1 a st st.pc1 h1 h2 h3 h4 h6 h8
    refine ⟨e6, ?_, ?_, ?_, ?_, e7, ?_, e8⟩
    · show (callerStep k1 st st.pc1 a).2.completedGen ≤
        (callerStep k1 st st.pc1 a).2.invocations
      omega
    · show (callerStep k1 st st.pc1 a).2.resolvedVal = none ∨
        (callerStep k1 st st.pc1 a).2.resolvedVal = some a
      rw [e1]; exact h3
    · show 1 ≤ (callerStep k1 st st.pc1 a).2.completedGen →
        (callerStep k1 st st.pc1 a).2.resolvedVal = some a
      rw [e1, e2]; exact h4
    · show adaptedOk a (callerStep k1 st st.pc1 a).2.pc0
      rw [e3]; exact h5
    · show wgenOk (callerStep k1 st st.pc1 a).2.invocations (callerStep k1 st st.pc1 a).2.pc0
      rw [e3]; exact wgenOk_mono e5 h7
  | loadRun =>
    by_cases hp : pendingC st
    · have hstep : stepC k0 k1 a st .loadRun =
          { st with completedGen := st.completedGen + 1, resolvedVal := some a } := by
        simp only [stepC, if_pos hp]
      rw [hstep]
      simp only [pendingC, decide_eq_true_eq] at hp
      exact ⟨(show st.invocations ≤ (st.completedGen + 1) + 1 by omega),
        (show st.completedGen + 1 ≤ st.invocations by omega),
        Or.inr rfl, fun _ => rfl, h5, h6, h7, h8⟩
    · have hstep : stepC k0 k1 a st .loadRun = st := by
        simp only [stepC, if_neg hp]
      rw [hstep]
      exact ⟨h1, h2, h3, h4, h5, h6, h7, h8⟩

theorem stepC_get_bound (a : Nat) (st : CState) (who : TaskId)
    (h : InvC a st) (hb : st.invocations ≤ 1) :
    (stepC false false a st who).invocations ≤ 1 := by
  obtain ⟨h1, h2, h3, h4, h5, h6, h7, h8⟩ := h
  cases who with
  | caller0 =>
    obtain ⟨e1, e2, e3, e4, e5, e6, e7, e8, eg⟩ :=
      callerStep_spec false a st st.pc0 h1 h2 h3 h4 h5 h7
    show (callerStep false st st.pc0 a).2.invocations ≤ 1
    rcases eg rfl with h0 | he
    · omega
    · omega
  | caller1 =>
    obtain ⟨e1, e2, e3, e4, e5, e6, e7, e8, eg⟩ :=
      callerStep_spec false a st st.pc1 h1 h2 h3 h4 h6 h8
    show (callerStep false st st.pc1 a).2.invocations ≤ 1
    rcases eg rfl with h0 | he
    · omega
    · omega
  | loadRun =>
    by_cases hp : pendingC st
    · have hstep : stepC false false a st .loadRun =
          { st with completedGen := st.completedGen + 1, resolvedVal := some a } := by
        simp only [stepC, if_pos hp]
      rw [hstep]
      exact hb
    · have hstep : stepC false false a st .loadRun = st := by
        simp only [stepC, if_neg hp]
      rw [hstep]
      exact hb

theorem runC_inv (k0 k1 : Bool) (a : Nat) (sched : List TaskId) :
    ∀ st, InvC a st → InvC a (runC k0 k1 a sched st) := by
  induction sched with
  | nil => intro st h; exact h
  | cons c cs ih =>
    intro st h
    exact ih (stepC k0 k1 a st c) (stepC_preserves k0 k1 a st c h)

theorem runC_get_bound (a : Nat) (sched : List TaskId) :
    ∀ st, InvC a st → st.invocations ≤ 1 →
      (runC false false a sched st).invocations ≤ 1 := by
  induction sched with
  | nil => intro st _ hb; exact hb
  | cons c cs ih =>
    intro st h hb
    exact ih (stepC false false a st c) (stepC_preserves false false a st c h)
      (stepC_get_bound a st c h hb)

theorem initC_inv (a : Nat) : InvC a initC :=
  ⟨(show (0 : Nat) ≤ 0 + 1 by omega), (show (0 : Nat) ≤ 0 by omega), Or.inl rfl,
   fun h => absurd h (show ¬(1 ≤ (0 : Nat)) by omega),
   fun v hv => TPC.noConfusion hv, fun v hv => TPC.noConfusion hv,
   fun g hg => TPC.noConfusion hg, fun g hg => TPC.noConfusion hg⟩

/-- C3: for every producer value, adapter, choice of caller kinds (`get` or
`reload`), and interleaving of the two callers with the load resumption —
starting from a freshly registered lazy key — the number of producer
invocations never exceeds the number of completed loads by more than one (at
most one load in flight at any time), every caller that has returned holds
the one adapter-wrapped produced value, and when both callers are `get`
calls the producer is invoked at most once in total: the second caller joins
the pending load (or reads the cached value) instead of invoking the
producer again. -/
theorem C3_resolver_single_flight (prodVal : Nat) (adaptF : Nat → Nat) (k0 k1 : Bool)
    (sched : List TaskId) :
    (runC k0 k1 (adaptF prodVal) sched initC).invocations ≤
      (runC k0 k1 (adaptF prodVal) sched initC).completedGen + 1
  ∧ (∀ v, (runC k0 k1 (adaptF prodVal) sched initC).pc0 = .finished v →
      v = some (adaptF prodVal))
  ∧ (∀ v, (runC k0 k1 (adaptF prodVal) sched initC).pc1 = .finished v →
      v = some (adaptF prodVal))
  ∧ (k0 = false → k1 = false →
      (runC k0 k1 (adaptF prodVal) sched initC).invocations ≤ 1) := by
  have h := runC_inv k0 k1 (adaptF prodVal) sched initC (initC_inv (adaptF prodVal))
  refine ⟨h.1, h.2.2.2.2.1, h.2.2.2.2.2.1, ?_⟩
  intro hk0 hk1
  subst hk0; subst hk1
  exact runC_get_bound (adaptF prodVal) sched initC (initC_inv (adaptF prodVal))
    (show (0 : Nat) ≤ 1 by omega)

/-- C3 witness: a concrete interleaving of two concurrent `get` calls around
one load completion — the schedule makes the second caller start while the
first caller's load is pending — invoking the producer exactly once and
finishing both callers with the adapted value. -/
theorem C3_resolver_single_flight_witness :
    (some 6 : Option Nat) = some ((fun n => n + 1) 5)
  ∧ (runC false false ((fun n => n + 1) 5)
      [.caller0, .caller1, .loadRun, .caller0, .caller1] initC).invocations ≤ 1
  ∧ (runC false false ((fun n => n + 1) 5)
      [.caller0, .caller1, .loadRun, .caller0, .caller1] initC).pc0 =
        .finished (some 6) :=
  ⟨(C3_resolver_single_flight 5 (fun n => n + 1) false false
      [.caller0, .caller1, .loadRun, .caller0, .caller1]).2.1 (some 6) (by decide),
   (C3_resolver_single_flight 5 (fun n => n + 1) false false
      [.caller0, .caller1, .loadRun, .caller0, .caller1]).2.2.2 rfl rfl,
   by decide⟩
